import Mathlib

/-
Verification of the document-to-study-material generation pipeline of this
repository (supabase/functions/generate-flashcards/index.ts,
supabase/functions/generate-quiz/index.ts and the page-aware iteration of the
flashcards function).  Strings are modelled as lists of characters; JavaScript
numbers are modelled as rationals; the nondeterministic generative-model calls
and shuffles are modelled as explicit parameters.
-/

-- ===================== Basic string model =====================

/-- A JavaScript string, modelled as a list of characters. -/
abbrev Str := List Char

/-- Coerce a Lean string literal into the model. -/
def str (s : String) : Str := s.data

/-- ASCII fragment of JavaScript toLowerCase, applied characterwise. -/
def lowerChar (c : Char) : Char :=
  if 'A' ≤ c ∧ c ≤ 'Z' then Char.ofNat (c.toNat + 32) else c

/-- JavaScript s.toLowerCase(). -/
def lowerStr (s : Str) : Str := s.map lowerChar

/-- Characters matched by the regex classes p-L and p-N
(letters and digits; ASCII fragment).  Everything else is a token separator
in the tokenizers of the source. -/
def isWordChar (c : Char) : Bool := c.isAlpha || c.isDigit

/-- Whitespace in the sense of the regex class backslash-s
(space, tab, LF, CR, vertical tab, form feed). -/
def isWS (c : Char) : Bool :=
  c == ' ' || c == '\t' || c == '\n' || c == '\r' ||
  c == Char.ofNat 11 || c == Char.ofNat 12

/-- JavaScript s.trim(): drop whitespace at both ends. -/
def trimStr (s : Str) : Str :=
  ((s.dropWhile isWS).reverse.dropWhile isWS).reverse

/-- Splitter core: cut a character list into the maximal runs of characters
satisfying keep, dropping empty pieces.  cur holds the current run reversed. -/
def splitKeepGo (keep : Char → Bool) : Str → Str → List Str
  | [], cur => if cur.isEmpty then [] else [cur.reverse]
  | c :: rest, cur =>
    if keep c then splitKeepGo keep rest (c :: cur)
    else if cur.isEmpty then splitKeepGo keep rest []
    else cur.reverse :: splitKeepGo keep rest []

/-- tokenizeWords of the source: lowercase, replace every character that is
not a letter or digit by a space, split on whitespace, drop empties.
Equivalently: the maximal word-character runs of the lowercased string. -/
def tokenizeWords (s : Str) : List Str := splitKeepGo isWordChar (lowerStr s) []

/-- Split on whitespace runs (the split of wordCount in generate-quiz). -/
def splitWS (s : Str) : List Str := splitKeepGo (fun c => !isWS c) s []

/-- wordCount of generate-quiz/index.ts: s.trim().split(ws).filter(Boolean).length. -/
def wordCount (s : Str) : Nat := (splitWS (trimStr s)).length

/-- JavaScript haystack.includes(pat): pat occurs as a contiguous substring. -/
def strIncludes (hay pat : Str) : Bool :=
  match hay with
  | [] => pat.isEmpty
  | _ :: rest => pat.isPrefixOf hay || strIncludes rest pat

-- ===================== Grounding validator (generate-flashcards) =====================

/-- supportedBySource of generate-flashcards/index.ts (lines 87 to 96):
true iff some token of the needle of length at least 3 occurs in the
lowercased haystack. -/
def supportedBySource (needle haystack : Str) : Bool :=
  if needle.isEmpty || haystack.isEmpty then false
  else
    let n := tokenizeWords needle
    if n.isEmpty then false
    else n.any (fun t => decide (3 ≤ t.length) && strIncludes (lowerStr haystack) t)

/-- A generated flashcard as returned by the model, before validation. -/
structure RawCard where
  question : Str
  answer : Str
  difficulty : Str
deriving DecidableEq

/-- The difficulty defaulting inside validateFlashcards:
if (not c.difficulty) c.difficulty = medium. -/
def fixDifficulty (c : RawCard) : RawCard :=
  if c.difficulty.isEmpty then { c with difficulty := str "medium" } else c

/-- The per-card support test of validateFlashcards: qOk or aOk. -/
def cardSupported (c : RawCard) (source : Str) : Bool :=
  supportedBySource c.question source || supportedBySource c.answer source

/-- The supportRate computed by validateFlashcards:
supported count over total count, 0 for an empty batch. -/
def supportRate (cards : List RawCard) (source : Str) : ℚ :=
  if cards.length = 0 then 0
  else ((cards.countP (fun c => cardSupported c source) : ℚ)) / (cards.length : ℚ)

/-- validateFlashcards of generate-flashcards/index.ts (lines 1040 to 1052):
keeps exactly the cards whose question or answer is supported by the source
(with missing difficulty defaulted to medium on the kept objects), and
returns the support rate of the whole batch. -/
def validateFlashcards (cards : List RawCard) (source : Str) : List RawCard × ℚ :=
  ((cards.filter (fun c => cardSupported c source)).map fixDifficulty,
   supportRate cards source)

-- ===================== Chunk selection (generate-flashcards) =====================

/-- A chunk as built by chunkTextByChars: id, text, character span, optional score. -/
structure Chunk where
  id : Nat
  text : Str
  start : Nat
  stop : Nat
  score : Option Nat
deriving DecidableEq

/-- Loop body of selectTopChunks: skip a chunk that would overflow the budget,
otherwise take it; stop once the budget is reached. -/
def selectGo (maxChars : Nat) : List Chunk → Nat → List Chunk
  | [], _ => []
  | c :: rest, used =>
    if maxChars < used + c.text.length then selectGo maxChars rest used
    else
      let used2 := used + c.text.length
      if maxChars ≤ used2 then [c]
      else c :: selectGo maxChars rest used2

/-- selectTopChunks of generate-flashcards/index.ts (lines 679 to 689). -/
def selectTopChunks (chunks : List Chunk) (maxChars : Nat) : List Chunk :=
  selectGo maxChars chunks 0

/-- Even-sampling fallback of the serve handler (lines 893 to 903): fifteen
evenly spaced 2000-character windows over the content. -/
def fallbackChunks (content : Str) : List Chunk :=
  let chunkSize := 2000
  let n0 := 30000 / chunkSize
  let numChunks := if n0 = 0 then 1 else n0
  let step := content.length / numChunks
  (List.range numChunks).map (fun i =>
    { id := i, text := (content.drop (i * step)).take chunkSize,
      start := i * step, stop := i * step + chunkSize, score := none })

/-- Total number of characters of the selected chunk texts. -/
def totalChars (l : List Chunk) : Nat := (l.map (fun c => c.text.length)).sum

-- ===================== Similarity, confidence, dedupe (generate-flashcards) =====================

/-- Collapse runs of spaces to a single space (the whitespace-collapsing
replace of normalizeTextForSimilarity; every separator is already a space
after the preceding characterwise replace). -/
def squashGo : Bool → Str → Str
  | _, [] => []
  | prevSpace, c :: rest =>
    if c = ' ' then
      (if prevSpace then squashGo true rest else ' ' :: squashGo true rest)
    else c :: squashGo false rest

/-- normalizeTextForSimilarity of generate-flashcards/index.ts (lines 725 to
731): lowercase, replace every non letter-or-digit character by a space,
collapse whitespace runs, trim. -/
def normalizeTextForSimilarity (s : Str) : Str :=
  trimStr (squashGo false ((lowerStr s).map (fun c => if isWordChar c then c else ' ')))

/-- The token set of a string (JavaScript new Set over tokenizeWords). -/
def tokenSet (s : Str) : Finset Str := (tokenizeWords s).toFinset

/-- computeJaccard of generate-quiz/index.ts (lines 23 to 30) and of the
page-aware flashcards iteration: Jaccard similarity of the two token sets. -/
def computeJaccard (a b : Str) : ℚ :=
  let sa := tokenSet a
  let sb := tokenSet b
  if sa.card = 0 ∨ sb.card = 0 then 0
  else if (sa ∪ sb).card = 0 then 0
  else ((sa ∩ sb).card : ℚ) / ((sa ∪ sb).card : ℚ)

/-- computeJaccard of generate-flashcards/index.ts (lines 733 to 740): the
same Jaccard, computed on normalizeTextForSimilarity of both strings.  This
is the variant used by dedupeCards. -/
def computeJaccardNorm (a b : Str) : ℚ :=
  computeJaccard (normalizeTextForSimilarity a) (normalizeTextForSimilarity b)

/-- The overlapRatio helper inside computeSupportScore of
generate-flashcards/index.ts (lines 747 to 755): tokens of length at least 3
found in the source token set, divided by the TOTAL number of tokens of the
field (short tokens included in the denominator). -/
def overlapFrac (tokens : List Str) (sourceTokens : Finset Str) : ℚ :=
  if tokens.length = 0 then 0
  else ((tokens.countP (fun t => decide (3 ≤ t.length) && decide (t ∈ sourceTokens)) : ℚ))
        / (tokens.length : ℚ)

/-- computeSupportScore of generate-flashcards/index.ts (lines 743 to 760). -/
def computeSupportScore (question answer source : Str) : ℚ :=
  let qTokens := tokenizeWords (normalizeTextForSimilarity question)
  let aTokens := tokenizeWords (normalizeTextForSimilarity answer)
  let sourceTokens := (tokenizeWords (normalizeTextForSimilarity source)).toFinset
  min 1 ((2/5) * overlapFrac qTokens sourceTokens + (3/5) * overlapFrac aTokens sourceTokens)

/-- The tokens of length at least 3 of a field (the tokens the spec counts). -/
def longTokens (s : Str) : List Str :=
  (tokenizeWords (normalizeTextForSimilarity s)).filter (fun t => decide (3 ≤ t.length))

/-- Fraction of the given tokens present in the source token set (0 when the
token list is empty). -/
def specFrac (ts : List Str) (sourceTokens : Finset Str) : ℚ :=
  if ts.length = 0 then (0 : ℚ)
  else ((ts.countP (fun t => decide (t ∈ sourceTokens)) : ℚ)) / (ts.length : ℚ)

/-- The confidence formula as the specification words it (spec section 4.6):
each overlap is the fraction of the field tokens OF LENGTH AT LEAST 3 that
occur in the source token set.  Same token extraction as the code, so that
exactly the denominators differ; spec-side definition for comparison. -/
def specConfidence (question answer source : Str) : ℚ :=
  let sourceTokens := (tokenizeWords (normalizeTextForSimilarity source)).toFinset
  (2/5) * specFrac (longTokens question) sourceTokens
    + (3/5) * specFrac (longTokens answer) sourceTokens

/-- A validated card carrying its computed confidence (the card objects after
the confidence pass of the serve handler, before deduplication). -/
structure Card where
  question : Str
  answer : Str
  difficulty : Str
  confidence : ℚ
deriving DecidableEq

/-- The combined question plus answer string used by dedupeCards. -/
def combinedQA (c : Card) : Str := c.question ++ str " ||| " ++ c.answer

/-- The in-place upgrade of dedupeCards: on a duplicate hit the accepted
entry takes the payload of the incoming card exactly when the incoming
confidence is strictly higher. -/
def mergeCard (u c : Card) : Card :=
  if u.confidence < c.confidence then
    { question := c.question, answer := c.answer,
      difficulty := if c.difficulty.isEmpty then u.difficulty else c.difficulty,
      confidence := c.confidence }
  else u

/-- The inner scan of dedupeCards: find the first accepted entry whose
similarity with the incoming card reaches the threshold and upgrade it in
place; append the card when no entry matches. -/
def dedupeInsert (threshold : ℚ) : List Card → Card → List Card
  | [], c => [c]
  | u :: rest, c =>
    if threshold ≤ computeJaccardNorm (combinedQA c) (combinedQA u) then
      mergeCard u c :: rest
    else u :: dedupeInsert threshold rest c

/-- dedupeCards of generate-flashcards/index.ts (lines 762 to 786). -/
def dedupeCards (cards : List Card) (threshold : ℚ) : List Card :=
  cards.foldl (dedupeInsert threshold) []

-- ===================== Persistence and pipeline (generate-flashcards) =====================

/-- A flashcards-table row as built by the insert map of the serve handler
(lines 1102 to 1110): question, answer and difficulty only.  The code
comments that confidence is returned to the client but not inserted. -/
structure FlashcardRow where
  question : Str
  answer : Str
  difficulty : Str
deriving DecidableEq

/-- The flashcardsToInsert map of the serve handler (lines 1102 to 1110). -/
def flashcardsToInsert (deduped : List Card) : List FlashcardRow :=
  deduped.map (fun c =>
    { question := c.question, answer := c.answer,
      difficulty := if c.difficulty.isEmpty then str "medium" else c.difficulty })

/-- A response card of the serve handler (lines 1119 to 1125): carries the
confidence back to the client. -/
structure ResponseCard where
  question : Str
  answer : Str
  difficulty : Str
  confidence : ℚ
deriving DecidableEq

/-- The responseCards map of the serve handler (lines 1119 to 1125). -/
def responseCards (deduped : List Card) : List ResponseCard :=
  deduped.map (fun c =>
    { question := c.question, answer := c.answer,
      difficulty := if c.difficulty.isEmpty then str "medium" else c.difficulty,
      confidence := c.confidence })

/-- The confidence pass of the serve handler (lines 1071 to 1073). -/
def withConfidence (c : RawCard) (source : Str) : Card :=
  { question := c.question, answer := c.answer, difficulty := c.difficulty,
    confidence := computeSupportScore c.question c.answer source }

/-- Outcome of a pipeline run: the deduplicated cards of a 200 response, or
the error message of a 500 response. -/
inductive PResponse where
  | ok (cards : List Card)
  | error (msg : Str)
deriving DecidableEq

/-- Result of one run of the flashcard generation pipeline: the generation
calls made (false = plain prompt, true = stricter instruction appended), the
response, and the database rows inserted. -/
structure PipelineResult where
  attempts : List Bool
  response : PResponse
  insertedSetRows : Nat
  insertedCardRows : List FlashcardRow
deriving DecidableEq

/-- The fail-closed error message of the serve handler (line 1067). -/
def supportFailureMsg : Str :=
  str "AI-generated flashcards were not sufficiently supported by the document text."

/-- The all-duplicates error message of the serve handler (line 1081). -/
def dedupeFailureMsg : Str :=
  str "All generated flashcards were filtered out as duplicates or unsupported."

/-- The tail of the serve handler after the generation calls (lines 1065 to
1116): fail-closed support check, confidence pass, dedupe, then the two
inserts.  On the error paths nothing is inserted (the throw precedes every
insert). -/
def finishPipeline (source : Str) (attempts : List Bool)
    (validated : List RawCard) (rate : ℚ) : PipelineResult :=
  if rate < 1/2 ∨ validated.length = 0 then
    { attempts := attempts, response := PResponse.error supportFailureMsg,
      insertedSetRows := 0, insertedCardRows := [] }
  else
    let withConf := validated.map (fun c => withConfidence c source)
    let deduped := dedupeCards withConf (7/10)
    if deduped.length = 0 then
      { attempts := attempts, response := PResponse.error dedupeFailureMsg,
        insertedSetRows := 0, insertedCardRows := [] }
    else
      { attempts := attempts, response := PResponse.ok deduped,
        insertedSetRows := 1, insertedCardRows := flashcardsToInsert deduped }

/-- The generation and retry control flow of the serve handler (lines 1037 to
1068): one plain generation call; if the support rate is below 0.6, exactly
one retry with the stricter instruction; then the fail-closed check.  gen
models callGenerateFlashcards as a function of whether the stricter
instruction was appended. -/
def runFlashcardPipeline (gen : Bool → List RawCard) (source : Str) : PipelineResult :=
  let v1 := validateFlashcards (gen false) source
  if v1.2 < 6/10 then
    let v2 := validateFlashcards (gen true) source
    finishPipeline source [false, true] v2.1 v2.2
  else
    finishPipeline source [false] v1.1 v1.2

/-- The validation state the fail-closed check sees, after the possible retry. -/
def finalValidation (gen : Bool → List RawCard) (source : Str) : List RawCard × ℚ :=
  if (validateFlashcards (gen false) source).2 < 6/10 then
    validateFlashcards (gen true) source
  else
    validateFlashcards (gen false) source

-- ===================== Concrete instances for counterexamples and witnesses =====================

/-- First accepted card of the dedupe counterexample (token set a b c d e f). -/
def cardA : Card :=
  { question := str "a b c d e f", answer := [], difficulty := str "easy", confidence := 0 }

/-- Second accepted card (token set a b c d g h; similarity to cardA is 1/2). -/
def cardB : Card :=
  { question := str "a b c d g h", answer := [], difficulty := str "easy", confidence := 0 }

/-- Incoming card (token set a b c d e g; similarity 5/7 to both cardA and
cardB) with higher confidence, so it upgrades cardA in place. -/
def cardC : Card :=
  { question := str "a b c d e g", answer := [], difficulty := str "easy", confidence := 1 }

/-- A generation oracle returning only unsupportable cards (every token is
shorter than 3 characters), for the fail-closed witness. -/
def genEx1 : Bool → List RawCard :=
  fun _ => [{ question := str "zz", answer := str "qq", difficulty := str "easy" }]

/-- Source document for the fail-closed witness. -/
def sourceEx1 : Str := str "alpha beta gamma"

-- ===================== Quiz distractors (generate-quiz) =====================

/-- computeSupportScoreOfText of generate-quiz/index.ts (lines 35 to 42):
fraction of the snippet tokens of length at least 3 found among the source
tokens. -/
def computeSupportScoreOfText (snippet source : Str) : ℚ :=
  let sTokens := (tokenizeWords source).toFinset
  let tokens := (tokenizeWords snippet).filter (fun t => decide (3 ≤ t.length))
  if tokens.length = 0 then 0
  else ((tokens.countP (fun t => decide (t ∈ sTokens)) : ℚ)) / (tokens.length : ℚ)

/-- isValidDistractor of generate-quiz/index.ts (lines 68 to 87). -/
def isValidDistractor (candidate correct source : Str) : Bool :=
  if candidate.isEmpty then false
  else
    let cand := trimStr candidate
    if cand.isEmpty then false
    else if lowerStr cand = lowerStr correct then false
    else
      let j := computeJaccard cand correct
      if (17/20 : ℚ) ≤ j then false
      else
        let candSupport := computeSupportScoreOfText cand source
        let correctSupport := computeSupportScoreOfText correct source
        if max (1/2) (correctSupport - 3/20) ≤ candSupport then false
        else
          let sim := computeJaccard cand correct
          if (3/20 : ℚ) ≤ sim ∧ sim ≤ (3/4 : ℚ) then true
          else if 0 < candSupport ∧ sim < 3/20 then true
          else false

/-- Candidate ranking score of pickBestDistractors (line 97): prefer
similarity near 0.35 and low source support. -/
def distractorScore (c correct source : Str) : ℚ :=
  let sim := computeJaccard c correct
  let support := computeSupportScoreOfText c source
  (max 0 ((3/5) - |sim - (7/20)|)) * (7/10) + (1 - support) * (3/10)

/-- First-occurrence deduplication (JavaScript Set insertion order). -/
def uniqFirst (l : List Str) : List Str :=
  l.foldl (fun acc s => if s ∈ acc then acc else acc ++ [s]) []

/-- Stable insertion into a list already sorted by descending score (the
behaviour of the stable comparator sort on score differences). -/
def insertDesc (x : Str × ℚ) : List (Str × ℚ) → List (Str × ℚ)
  | [] => [x]
  | y :: rest => if y.2 < x.2 then x :: y :: rest else y :: insertDesc x rest

/-- Stable sort by descending score. -/
def sortByScoreDesc (l : List (Str × ℚ)) : List (Str × ℚ) := l.foldr insertDesc []

/-- pickBestDistractors of generate-quiz/index.ts (lines 90 to 103). -/
def pickBestDistractors (correct : Str) (candidates : List Str) (source : Str)
    (needed : Nat) : List Str :=
  let uniq := uniqFirst ((candidates.map trimStr).filter (fun s => !s.isEmpty))
  let scored := (uniq.map (fun c => (c, distractorScore c correct source))).filter
      (fun x => isValidDistractor x.1 correct source)
  ((sortByScoreDesc scored).take needed).map Prod.fst

/-- The AI-fallback validation loop inside buildMCQFromCard (lines 306 to
309): push each valid AI distractor, stopping once three are collected. -/
def addAIGo (correct source : Str) : List Str → List Str → List Str
  | acc, [] => acc
  | acc, d :: rest =>
    let acc2 := if isValidDistractor d correct source then acc ++ [d] else acc
    if 3 ≤ acc2.length then acc2 else addAIGo correct source acc2 rest

/-- Sentence splitting of extractSentences: cut at whitespace runs that
follow a period, question mark or exclamation mark (the lookbehind split);
skipping tracks whether we are inside the separator run. -/
def splitSentGo : Bool → Char → Str → Str → List Str
  | _, _, [], cur => [cur.reverse]
  | skipping, prev, c :: rest, cur =>
    if skipping then
      if isWS c then splitSentGo true prev rest cur
      else splitSentGo false c rest [c]
    else
      if isWS c && (prev == '.' || prev == '?' || prev == '!') then
        cur.reverse :: splitSentGo true ' ' rest []
      else splitSentGo false c rest (c :: cur)

/-- extractSentences of generate-quiz/index.ts (lines 45 to 57): split into
sentence-like parts, trim, drop empties, keep parts of 3 to 50 words. -/
def extractSentences (text : Str) : List Str :=
  if text.isEmpty then []
  else
    let parts := ((splitSentGo false ' ' text []).map trimStr).filter (fun s => !s.isEmpty)
    parts.filter (fun p => !(wordCount p < 3 || 50 < wordCount p))

-- ===================== Quiz building (generate-quiz) =====================

/-- A flashcards-table row as the quiz function reads it back. -/
structure CardRow where
  id : Nat
  question : Str
  answer : Str
  page_from : Option Nat
  page_to : Option Nat
deriving DecidableEq

/-- A built multiple-choice question. -/
structure MCQ where
  question : Str
  options : List Str
  correctIndex : Int
  explanation : Str
deriving DecidableEq

/-- JavaScript truthiness of an optional number (null and 0 are falsy). -/
def truthyNum (o : Option Nat) : Bool :=
  match o with
  | none => false
  | some n => !(n == 0)

/-- The explanation string built at line 320. -/
def explanationFor (card : CardRow) : Str :=
  if truthyNum card.page_from && truthyNum card.page_to then
    let pf := card.page_from.getD 0
    let pt := card.page_to.getD 0
    str "See pages " ++ (Nat.repr pf).data ++
      (if !(pt == pf) then str "-" ++ (Nat.repr pt).data else [])
  else []

/-- JavaScript options.findIndex of string equality: first index, or -1. -/
def findIndexEq (options : List Str) (correct : Str) : Int :=
  match options.findIdx? (fun o => o == correct) with
  | some i => (i : Int)
  | none => -1

/-- buildMCQFromCard of generate-quiz/index.ts (lines 271 to 322), as the
value its returned promise resolves to.  shuf models the Fisher-Yates
shuffle of the options, rawSentences the (shuffled) sentence pool of the
handler, and aiDistractors the AI fallback response for this card. -/
def buildMCQFromCard (shuf : List Str → List Str) (rawSentences : List Str)
    (aiDistractors : List Str) (card : CardRow) (otherAnswers : List Str)
    (sourceText : Str) : Option MCQ :=
  let correct := card.answer
  let fromAnswers := ((otherAnswers.filter (fun a => !a.isEmpty)).filter
      (fun a => !(lowerStr (trimStr a) == lowerStr (trimStr correct)))).map trimStr
  let fromSentences := rawSentences.filter (fun s =>
      !(s.length < 20) &&
      !(!correct.isEmpty &&
        strIncludes (lowerStr s) ((lowerStr correct).take (min 30 correct.length))))
  let candidates := fromAnswers ++ fromSentences
  let distractors0 := pickBestDistractors correct candidates sourceText 3
  let distractors :=
    if distractors0.length < 3 then addAIGo correct sourceText distractors0 aiDistractors
    else distractors0
  if distractors.length < 3 then none
  else
    let options := shuf (correct :: distractors.take 3)
    some { question := card.question, options := options,
           correctIndex := findIndexEq options correct,
           explanation := explanationFor card }

/-- What the quiz-from-flashcards loop actually pushes: buildMCQFromCard is
async and the call at generate-quiz/index.ts line 332 is not awaited, so the
pushed value is a pending Promise (always truthy), wrapping the value the
call would resolve to. -/
inductive QuizEntry where
  | pendingPromise (resolved : Option MCQ) : QuizEntry
deriving DecidableEq

/-- The quiz-from-flashcards loop of the serve handler (lines 325 to 335):
for each card of the (shuffled) pool it evaluates the un-awaited call, tests
the Promise for truthiness (always true) and pushes it, stopping once count
entries are collected. -/
def quizLoopGo (count : Nat) (mk : CardRow → Option MCQ) :
    List CardRow → List QuizEntry → List QuizEntry
  | [], acc => acc
  | card :: rest, acc =>
    let acc2 := acc ++ [QuizEntry.pendingPromise (mk card)]
    if count ≤ acc2.length then acc2 else quizLoopGo count mk rest acc2

/-- The whole validated-flashcards quiz path: for each card the other-answer
pool holds the answers of the other fetched rows. -/
def quizFromFlashcards (shuf : List Str → List Str) (rawSentences : List Str)
    (ai : CardRow → List Str) (validatedCards pool : List CardRow)
    (content : Str) (count : Nat) : List QuizEntry :=
  quizLoopGo count
    (fun card => buildMCQFromCard shuf rawSentences (ai card) card
      ((validatedCards.filter (fun c => !(c.id == card.id))).map (fun c => c.answer))
      content)
    pool []

/-- Source text of the quiz code-bug scenario (no usable distractor exists). -/
def quizContentEx : Str := str "alpha beta gamma delta epsilon"

/-- Flashcard rows of the scenario: four cards sharing one answer. -/
def quizCardEx (i : Nat) : CardRow :=
  { id := i, question := str "question " ++ (Nat.repr i).data,
    answer := str "alpha beta gamma delta epsilon", page_from := none, page_to := none }

/-- The fetched card pool of the scenario. -/
def quizPoolEx : List CardRow := [quizCardEx 1, quizCardEx 2, quizCardEx 3, quizCardEx 4]

-- ===================== Page-aware chunking (page-aware flashcards iteration) =====================

/-- Lower page bound of the narrowing (part_004 line 381); 0 models an
absent (falsy) request field. -/
def fromPage (startPage : Nat) : Nat := max 1 (if startPage = 0 then 1 else startPage)

/-- Upper page bound of the narrowing (part_004 line 382). -/
def toPage (pages : List Str) (endPage : Nat) : Nat :=
  min pages.length (if endPage = 0 then pages.length else endPage)

/-- The page-range narrowing of the serve handler (part_004 lines 379 to
384): clamp the lower bound below to 1 and the upper bound above to the page
count, then slice. -/
def narrowPages (pages : List Str) (startPage endPage : Nat) : List Str :=
  if startPage ≠ 0 ∨ endPage ≠ 0 then
    (pages.drop (fromPage startPage - 1)).take
      (toPage pages endPage - (fromPage startPage - 1))
  else pages

/-- A chunk of the page-aware iteration (part_004 line 154): page provenance
plus global character span. -/
structure PChunk where
  id : Nat
  text : Str
  page_from : Nat
  page_to : Nat
  start : Nat
  stop : Nat
deriving DecidableEq

/-- The inner while loop of chunkPagesToChunks over one page text: the
window spans, before the nonempty-slice filter.  fuel bounds the iteration
count; the source loop advances by chunkSize minus overlap per step, so one
unit of fuel per character is ample. -/
def chunkLoop (len chunkSize overlap : Nat) : Nat → Nat → List (Nat × Nat)
  | 0, _ => []
  | fuel+1, start =>
    if start < len then
      let e := min (start + chunkSize) len
      if e = len then [(start, e)]
      else (start, e) :: chunkLoop len chunkSize overlap fuel (e - overlap)
    else []

/-- The spans of one page whose trimmed slice is nonempty, with the slice. -/
def keptSlices (pageText : Str) (chunkSize overlap : Nat) : List (Nat × Nat × Str) :=
  (chunkLoop pageText.length chunkSize overlap (pageText.length + 1) 0).filterMap
    (fun se =>
      let slice := trimStr ((pageText.drop se.1).take (se.2 - se.1))
      if slice.isEmpty then none else some (se.1, se.2, slice))

/-- Indexed map used to assign the running chunk ids. -/
def mapIdxGo (f : Nat → Nat × Nat × Str → PChunk) :
    Nat → List (Nat × Nat × Str) → List PChunk
  | _, [] => []
  | i, a :: rest => f i a :: mapIdxGo f (i + 1) rest

/-- Recursion of chunkPagesToChunks over the page list: p is the 0-based
position in the GIVEN page list, so every chunk of this page records page
p + 1; off accumulates the global character offset. -/
def chunkPagesGo (chunkSize overlap : Nat) :
    List Str → Nat → Nat → Nat → List PChunk
  | [], _, _, _ => []
  | pg :: rest, p, idStart, off =>
    let sk := keptSlices pg chunkSize overlap
    mapIdxGo (fun i se =>
        { id := idStart + i, text := se.2.2, page_from := p + 1, page_to := p + 1,
          start := off + se.1, stop := off + se.2.1 }) 0 sk
      ++ chunkPagesGo chunkSize overlap rest (p + 1) (idStart + sk.length) (off + pg.length)

/-- chunkPagesToChunks of part_004 (lines 155 to 182). -/
def chunkPagesToChunks (pages : List Str) (chunkSize overlap : Nat) : List PChunk :=
  chunkPagesGo chunkSize overlap pages 0 0 0

/-- A five-page document for the page-range scenario. -/
def pagesEx : List Str := [str "aaa", str "bbb", str "ccc", str "ddd", str "eee"]

/-- The first chunk the 2-to-3 narrowing of that document produces. -/
def chunkEx : PChunk :=
  { id := 0, text := str "bbb", page_from := 1, page_to := 1, start := 0, stop := 3 }

-- ===================== Difficulty (C10) =====================

/-- Sentence count used by the spec-side difficulty bands: number of
sentence-final punctuation marks. -/
def sentenceCountOf (s : Str) : Nat :=
  s.countP (fun c => c == '.' || c == '?' || c == '!')

/-- Modelled from the spec (section 4.7), for comparison: the difficulty
band a card's answer falls into by its measured word and sentence counts
(easy 1 to 12 words and at most 1 sentence, medium 13 to 40 words and at
most 2 sentences, hard 41 to 250 words and at most 6 sentences).  No
counterpart exists in the source: the code never measures the answer. -/
def specBandDifficulty (answer : Str) : Option Str :=
  let w := wordCount answer
  let sc := sentenceCountOf answer
  if 1 ≤ w ∧ w ≤ 12 ∧ sc ≤ 1 then some (str "easy")
  else if 13 ≤ w ∧ w ≤ 40 ∧ sc ≤ 2 then some (str "medium")
  else if 41 ≤ w ∧ w ≤ 250 ∧ sc ≤ 6 then some (str "hard")
  else none

/-- The raw card of the difficulty scenario: a supported card whose answer
is in the easy band but whose model label says hard. -/
def rawCardEx2 : RawCard :=
  { question := str "What color is the sky", answer := str "Blue",
    difficulty := str "hard" }

/-- A generation oracle returning only that card. -/
def genEx2 : Bool → List RawCard := fun _ => [rawCardEx2]

/-- Source document for the difficulty scenario. -/
def sourceEx2 : Str := str "blue color words here"

-- ===================== Theorems =====================

theorem lowerChar_ws {c : Char} (h : isWS c = true) : lowerChar c = c := by
  simp only [isWS, Bool.or_eq_true, beq_iff_eq] at h
  rcases h with ((((h | h) | h) | h) | h) | h <;> subst h <;> decide

theorem isWordChar_ws {c : Char} (h : isWS c = true) : isWordChar c = false := by
  simp only [isWS, Bool.or_eq_true, beq_iff_eq] at h
  rcases h with ((((h | h) | h) | h) | h) | h <;> subst h <;> decide

theorem splitKeep_allSep_flush (keep : Char → Bool) :
    ∀ (b : Str), (∀ c ∈ b, keep c = false) → ∀ cur,
      splitKeepGo keep b cur = if cur.isEmpty then [] else [cur.reverse] := by
  intro b
  induction b with
  | nil => intro _ cur; simp [splitKeepGo]
  | cons c rest ih =>
    intro h cur
    have hc := h c (List.mem_cons_self c rest)
    have hrest := fun x hx => h x (List.mem_cons_of_mem c hx)
    by_cases hcur : cur.isEmpty
    · simp [splitKeepGo, hc, hcur, ih hrest]
    · simp [splitKeepGo, hc, hcur, ih hrest]

theorem splitKeep_append_sep (keep : Char → Bool) (b : Str)
    (hb : ∀ c ∈ b, keep c = false) :
    ∀ (m : Str) (cur : Str), splitKeepGo keep (m ++ b) cur = splitKeepGo keep m cur := by
  intro m
  induction m with
  | nil =>
    intro cur
    simpa [splitKeepGo] using splitKeep_allSep_flush keep b hb cur
  | cons c rest ih =>
    intro cur
    by_cases hc : keep c
    · simp [splitKeepGo, hc, ih]
    · by_cases hcur : cur.isEmpty
      · simp [splitKeepGo, hc, hcur, ih]
      · simp [splitKeepGo, hc, hcur, ih]

theorem splitKeep_sep_prefix (keep : Char → Bool) :
    ∀ (a : Str), (∀ c ∈ a, keep c = false) →
      ∀ m, splitKeepGo keep (a ++ m) [] = splitKeepGo keep m [] := by
  intro a
  induction a with
  | nil => intro _ m; simp
  | cons c rest ih =>
    intro h m
    have hc := h c (List.mem_cons_self c rest)
    simp [splitKeepGo, hc, ih (fun x hx => h x (List.mem_cons_of_mem c hx)) m]

theorem trim_decomp (s : Str) :
    ∃ a b, s = a ++ trimStr s ++ b ∧
      (∀ c ∈ a, isWS c = true) ∧ (∀ c ∈ b, isWS c = true) := by
  refine ⟨s.takeWhile isWS, (((s.dropWhile isWS).reverse.takeWhile isWS)).reverse, ?_, ?_, ?_⟩
  · have h1 : s.takeWhile isWS ++ s.dropWhile isWS = s :=
      List.takeWhile_append_dropWhile isWS s
    have h2 : (s.dropWhile isWS).reverse.takeWhile isWS ++
        (s.dropWhile isWS).reverse.dropWhile isWS = (s.dropWhile isWS).reverse :=
      List.takeWhile_append_dropWhile isWS (s.dropWhile isWS).reverse
    have h3 : s.dropWhile isWS =
        ((s.dropWhile isWS).reverse.dropWhile isWS).reverse ++
        ((s.dropWhile isWS).reverse.takeWhile isWS).reverse := by
      have h4 := congrArg List.reverse h2
      rw [List.reverse_append, List.reverse_reverse] at h4
      exact h4.symm
    conv_lhs => rw [← h1, h3]
    simp [trimStr]
  · intro c hc
    exact List.mem_takeWhile_imp hc
  · intro c hc
    rw [List.mem_reverse] at hc
    exact List.mem_takeWhile_imp hc

theorem lowerStr_ws_list (l : Str) (h : ∀ c ∈ l, isWS c = true) : lowerStr l = l := by
  unfold lowerStr
  calc l.map lowerChar = l.map id := List.map_congr_left (fun a ha => lowerChar_ws (h a ha))
    _ = l := List.map_id l

theorem tokenizeWords_trim (s : Str) : tokenizeWords (trimStr s) = tokenizeWords s := by
  obtain ⟨a, b, hdec, ha, hb⟩ := trim_decomp s
  have hna : ∀ c ∈ a, isWordChar c = false := fun c hc => isWordChar_ws (ha c hc)
  have hnb : ∀ c ∈ b, isWordChar c = false := fun c hc => isWordChar_ws (hb c hc)
  conv_rhs => rw [hdec]
  unfold tokenizeWords lowerStr
  rw [List.map_append, List.map_append]
  rw [show a.map lowerChar = a from lowerStr_ws_list a ha,
      show b.map lowerChar = b from lowerStr_ws_list b hb]
  rw [List.append_assoc, splitKeep_sep_prefix isWordChar a hna,
      splitKeep_append_sep isWordChar b hnb]

theorem tokenizeWords_lower_congr {a b : Str} (h : lowerStr a = lowerStr b) :
    tokenizeWords a = tokenizeWords b := by
  unfold tokenizeWords
  rw [h]

theorem strIncludes_iff (hay pat : Str) : strIncludes hay pat = true ↔ pat <:+: hay := by
  induction hay with
  | nil =>
    simp [strIncludes, List.isEmpty_iff, List.infix_nil]
  | cons c rest ih =>
    simp only [strIncludes, Bool.or_eq_true, List.isPrefixOf_iff_prefix, ih,
      List.infix_cons_iff]

/-- C2: supportedBySource holds iff some token of length at least 3 of the
needle occurs (case-insensitively) as a substring of the haystack; an item all
of whose tokens are shorter than 3 characters is never supported; and
validateFlashcards keeps exactly the cards whose question or answer passes
this check (difficulty defaulted to medium). -/
theorem c2_support_check (needle hay source : Str) (cards : List RawCard) (c' : RawCard) :
    (supportedBySource needle hay = true ↔
      ∃ t ∈ tokenizeWords needle, 3 ≤ t.length ∧ t <:+: lowerStr hay)
    ∧ ((∀ t ∈ tokenizeWords needle, t.length < 3) → supportedBySource needle hay = false)
    ∧ (c' ∈ (validateFlashcards cards source).1 ↔
        ∃ c ∈ cards, (supportedBySource c.question source = true ∨
          supportedBySource c.answer source = true) ∧ c' = fixDifficulty c) := by
  have main : supportedBySource needle hay = true ↔
      ∃ t ∈ tokenizeWords needle, 3 ≤ t.length ∧ t <:+: lowerStr hay := by
    by_cases hne : needle.isEmpty
    · rw [List.isEmpty_iff] at hne
      subst hne
      simp [supportedBySource, tokenizeWords, lowerStr, splitKeepGo]
    · by_cases hhe : hay.isEmpty
      · rw [List.isEmpty_iff] at hhe
        subst hhe
        constructor
        · intro h
          simp [supportedBySource, hne] at h
        · rintro ⟨t, _, h3, hinf⟩
          rw [show lowerStr [] = [] from rfl, List.infix_nil] at hinf
          subst hinf
          simp at h3
      · have hguard : (needle.isEmpty || hay.isEmpty) = false := by
          simp [hne, hhe]
        have hsb : supportedBySource needle hay = (tokenizeWords needle).any
            (fun t => decide (3 ≤ t.length) && strIncludes (lowerStr hay) t) := by
          simp only [supportedBySource, hguard, Bool.false_eq_true, if_false]
          by_cases htok : (tokenizeWords needle).isEmpty
          · rw [if_pos htok]
            rw [List.isEmpty_iff] at htok
            rw [htok]
            rfl
          · rw [if_neg htok]
        rw [hsb, List.any_eq_true]
        constructor
        · rintro ⟨t, ht, hp⟩
          rw [Bool.and_eq_true, decide_eq_true_eq] at hp
          exact ⟨t, ht, hp.1, (strIncludes_iff _ _).mp hp.2⟩
        · rintro ⟨t, ht, h3, hinf⟩
          exact ⟨t, ht, by
            rw [Bool.and_eq_true, decide_eq_true_eq]
            exact ⟨h3, (strIncludes_iff _ _).mpr hinf⟩⟩
  refine ⟨main, ?_, ?_⟩
  · intro hall
    cases hsb : supportedBySource needle hay with
    | false => rfl
    | true =>
      obtain ⟨t, ht, h3, _⟩ := main.mp hsb
      have := hall t ht
      omega
  · simp only [validateFlashcards, List.mem_map, List.mem_filter, cardSupported,
      Bool.or_eq_true]
    constructor
    · rintro ⟨c, ⟨hc, hsup⟩, rfl⟩
      exact ⟨c, hc, hsup, rfl⟩
    · rintro ⟨c, hc, hsup, rfl⟩
      exact ⟨c, ⟨hc, hsup⟩, rfl⟩

/-- Witness for C2: a needle whose tokens are all shorter than 3 characters is
not supported, via the theorem. -/
theorem c2_support_check_witness : supportedBySource (str "ab xy") (str "abcdef") = false :=
  (c2_support_check (str "ab xy") (str "abcdef") (str "") [] ⟨[], [], []⟩).2.1 (by decide)

theorem selectGo_bound (m : Nat) :
    ∀ (l : List Chunk) (used : Nat), used ≤ m →
      used + totalChars (selectGo m l used) ≤ m := by
  intro l
  induction l with
  | nil => intro used h; simpa [selectGo, totalChars] using h
  | cons c rest ih =>
    intro used h
    by_cases hskip : m < used + c.text.length
    · simpa [selectGo, hskip] using ih used h
    · push_neg at hskip
      by_cases hfull : m ≤ used + c.text.length
      · simp only [selectGo, if_neg (not_lt.mpr hskip), if_pos hfull, totalChars,
          List.map_cons, List.map_nil, List.sum_cons, List.sum_nil]
        omega
      · push_neg at hfull
        have := ih (used + c.text.length) (le_of_lt hfull)
        simp only [selectGo, if_neg (not_lt.mpr hskip), if_neg (not_le.mpr hfull),
          totalChars, List.map_cons, List.sum_cons] at *
        omega

theorem sum_le_length_mul :
    ∀ (l : List Nat) (n : Nat), (∀ x ∈ l, x ≤ n) → l.sum ≤ l.length * n := by
  intro l
  induction l with
  | nil => simp
  | cons a rest ih =>
    intro n h
    have ha := h a (List.mem_cons_self a rest)
    have := ih n (fun x hx => h x (List.mem_cons_of_mem a hx))
    simp only [List.sum_cons, List.length_cons]
    calc a + rest.sum ≤ n + rest.length * n := Nat.add_le_add ha this
      _ = (rest.length + 1) * n := by ring

/-- C5: the total character length of the chunk texts chosen for the prompt
never exceeds the 30000-character budget, both for the keyword-scored greedy
selection selectTopChunks (over any chunk list, in particular the one sorted
by score) and for the zero-score even-sampling fallback path. -/
theorem c5_budget_bound (chunks : List Chunk) (content : Str) :
    totalChars (selectTopChunks chunks 30000) ≤ 30000 ∧
    totalChars (fallbackChunks content) ≤ 30000 := by
  constructor
  · have := selectGo_bound 30000 chunks 0 (Nat.zero_le _)
    simpa [selectTopChunks] using this
  · have hlen : ∀ x ∈ ((List.range 15).map
        (fun i => ((content.drop (i * (content.length / 15))).take 2000).length)), x ≤ 2000 := by
      intro x hx
      simp only [List.mem_map] at hx
      obtain ⟨i, _, rfl⟩ := hx
      exact List.length_take_le 2000 _
    have hsum := sum_le_length_mul _ 2000 hlen
    simp only [List.length_map, List.length_range] at hsum
    have heq : fallbackChunks content = (List.range 15).map (fun i =>
        { id := i, text := (content.drop (i * (content.length / 15))).take 2000,
          start := i * (content.length / 15), stop := i * (content.length / 15) + 2000,
          score := none }) := by
      unfold fallbackChunks
      norm_num
    rw [heq]
    unfold totalChars
    rw [List.map_map]
    exact le_trans hsum (by norm_num)

-- ===================== Jaccard and dedupe lemmas =====================

theorem computeJaccard_comm (a b : Str) : computeJaccard a b = computeJaccard b a := by
  unfold computeJaccard
  by_cases h : (tokenSet a).card = 0 ∨ (tokenSet b).card = 0
  · rw [if_pos h, if_pos (Or.symm h)]
  · rw [if_neg h, if_neg (fun hc => h (Or.symm hc))]
    rw [Finset.union_comm (tokenSet b) (tokenSet a), Finset.inter_comm (tokenSet b) (tokenSet a)]

theorem computeJaccardNorm_comm (a b : Str) :
    computeJaccardNorm a b = computeJaccardNorm b a := by
  unfold computeJaccardNorm
  exact computeJaccard_comm _ _

theorem dedupeInsert_no_match (th : ℚ) :
    ∀ (unique : List Card) (c : Card),
      (∀ u ∈ unique, computeJaccardNorm (combinedQA c) (combinedQA u) < th) →
      dedupeInsert th unique c = unique ++ [c] := by
  intro unique
  induction unique with
  | nil => intro c _; rfl
  | cons u rest ih =>
    intro c h
    have hu := h u (List.mem_cons_self u rest)
    rw [show dedupeInsert th (u :: rest) c =
        (if th ≤ computeJaccardNorm (combinedQA c) (combinedQA u) then
          mergeCard u c :: rest
        else u :: dedupeInsert th rest c) from rfl]
    rw [if_neg (not_le.mpr hu)]
    rw [ih c (fun x hx => h x (List.mem_cons_of_mem u hx))]
    rfl

theorem mergeCard_same_conf {u c : Card} (hu : u.confidence = c.confidence) :
    mergeCard u c = u := by
  unfold mergeCard
  rw [if_neg (by rw [hu]; exact lt_irrefl _)]

theorem dedupeInsert_cases (th k : ℚ) :
    ∀ (unique : List Card) (c : Card),
      (∀ u ∈ unique, u.confidence = k) → c.confidence = k →
      dedupeInsert th unique c = unique ∨
      (dedupeInsert th unique c = unique ++ [c] ∧
        ∀ u ∈ unique, computeJaccardNorm (combinedQA c) (combinedQA u) < th) := by
  intro unique
  induction unique with
  | nil =>
    intro c _ _
    right
    exact ⟨rfl, by intro u hu; cases hu⟩
  | cons u rest ih =>
    intro c hacc hc
    have hu := hacc u (List.mem_cons_self u rest)
    by_cases hm : th ≤ computeJaccardNorm (combinedQA c) (combinedQA u)
    · left
      rw [show dedupeInsert th (u :: rest) c =
          (if th ≤ computeJaccardNorm (combinedQA c) (combinedQA u) then
            mergeCard u c :: rest
          else u :: dedupeInsert th rest c) from rfl]
      rw [if_pos hm, mergeCard_same_conf (by rw [hu, hc])]
    · rcases ih c (fun x hx => hacc x (List.mem_cons_of_mem u hx)) hc with hl | ⟨hr, hall⟩
      · left
        rw [show dedupeInsert th (u :: rest) c =
            (if th ≤ computeJaccardNorm (combinedQA c) (combinedQA u) then
              mergeCard u c :: rest
            else u :: dedupeInsert th rest c) from rfl]
        rw [if_neg hm, hl]
      · right
        constructor
        · rw [show dedupeInsert th (u :: rest) c =
              (if th ≤ computeJaccardNorm (combinedQA c) (combinedQA u) then
                mergeCard u c :: rest
              else u :: dedupeInsert th rest c) from rfl]
          rw [if_neg hm, hr]
          rfl
        · intro x hx
          rcases List.mem_cons.mp hx with rfl | hx
          · exact not_le.mp hm
          · exact hall x hx

theorem dedupe_fold_inv (th k : ℚ) :
    ∀ (cards acc : List Card),
      (∀ x ∈ acc, x.confidence = k) → (∀ x ∈ cards, x.confidence = k) →
      List.Pairwise (fun x y => computeJaccardNorm (combinedQA x) (combinedQA y) < th) acc →
      (∀ x ∈ cards.foldl (dedupeInsert th) acc, x.confidence = k) ∧
      List.Pairwise (fun x y => computeJaccardNorm (combinedQA x) (combinedQA y) < th)
        (cards.foldl (dedupeInsert th) acc) := by
  intro cards
  induction cards with
  | nil =>
    intro acc hacc _ hpw
    exact ⟨hacc, hpw⟩
  | cons c rest ih =>
    intro acc hacc hcards hpw
    have hc := hcards c (List.mem_cons_self c rest)
    have hrest := fun x hx => hcards x (List.mem_cons_of_mem c hx)
    rw [List.foldl_cons]
    rcases dedupeInsert_cases th k acc c hacc hc with heq | ⟨heq, hall⟩
    · rw [heq]
      exact ih acc hacc hrest hpw
    · rw [heq]
      have hacc2 : ∀ x ∈ acc ++ [c], x.confidence = k := by
        intro x hx
        rcases List.mem_append.mp hx with hx | hx
        · exact hacc x hx
        · rcases List.mem_singleton.mp hx with rfl
          exact hc
      have hpw2 : List.Pairwise
          (fun x y => computeJaccardNorm (combinedQA x) (combinedQA y) < th) (acc ++ [c]) := by
        rw [List.pairwise_append]
        refine ⟨hpw, List.pairwise_singleton _ _, ?_⟩
        intro x hx y hy
        rcases List.mem_singleton.mp hy with rfl
        rw [computeJaccardNorm_comm]
        exact hall x hx
      exact ih (acc ++ [c]) hacc2 hrest hpw2

theorem dedupe_fold_fixed (th : ℚ) :
    ∀ (l acc : List Card),
      List.Pairwise (fun x y => computeJaccardNorm (combinedQA x) (combinedQA y) < th)
        (acc ++ l) →
      l.foldl (dedupeInsert th) acc = acc ++ l := by
  intro l
  induction l with
  | nil => intro acc _; simp
  | cons c rest ih =>
    intro acc hpw
    have hsplit := List.pairwise_append.mp hpw
    have hcross := hsplit.2.2
    have hins : dedupeInsert th acc c = acc ++ [c] := by
      apply dedupeInsert_no_match
      intro u hu
      rw [computeJaccardNorm_comm]
      exact hcross u hu c (List.mem_cons_self c rest)
    rw [List.foldl_cons, hins]
    have : (acc ++ [c]) ++ rest = acc ++ c :: rest := by simp
    rw [ih (acc ++ [c]) (by rw [this]; exact hpw)]
    simp

/-- C3 (amended): when no confidence upgrade can fire (all confidences equal)
the deduplicated output is pairwise strictly below the threshold; and on a
duplicate hit the accepted entry is replaced in place (nothing appended) by
mergeCard, which keeps the variant with the strictly higher confidence.  The
original pairwise claim is false in general: an in-place upgrade can raise
the similarity between two already-accepted entries (see the
counterexample). -/
theorem c3_dedupe_invariant (th k : ℚ) (cards : List Card) (u c : Card) (rest : List Card)
    (hconf : ∀ x ∈ cards, x.confidence = k) :
    List.Pairwise (fun x y => computeJaccardNorm (combinedQA x) (combinedQA y) < th)
      (dedupeCards cards th)
    ∧ (th ≤ computeJaccardNorm (combinedQA c) (combinedQA u) →
        dedupeInsert th (u :: rest) c = mergeCard u c :: rest
        ∧ (mergeCard u c).confidence = max u.confidence c.confidence
        ∧ (u.confidence < c.confidence →
            (mergeCard u c).question = c.question ∧ (mergeCard u c).answer = c.answer)
        ∧ (c.confidence ≤ u.confidence → mergeCard u c = u)) := by
  constructor
  · exact (dedupe_fold_inv th k cards [] (by intro x hx; cases hx) hconf List.Pairwise.nil).2
  · intro hm
    refine ⟨?_, ?_, ?_, ?_⟩
    · rw [show dedupeInsert th (u :: rest) c =
          (if th ≤ computeJaccardNorm (combinedQA c) (combinedQA u) then
            mergeCard u c :: rest
          else u :: dedupeInsert th rest c) from rfl]
      rw [if_pos hm]
    · unfold mergeCard
      by_cases hlt : u.confidence < c.confidence
      · rw [if_pos hlt]
        exact (max_eq_right (le_of_lt hlt)).symm
      · rw [if_neg hlt]
        exact (max_eq_left (not_lt.mp hlt)).symm
    · intro hlt
      unfold mergeCard
      rw [if_pos hlt]
      exact ⟨rfl, rfl⟩
    · intro hle
      unfold mergeCard
      rw [if_neg (not_lt.mpr hle)]

theorem computeJaccard_eval (a b : Str) (i u na nb : ℕ)
    (hna : (tokenSet a).card = na) (hnb : (tokenSet b).card = nb)
    (hna0 : na ≠ 0) (hnb0 : nb ≠ 0)
    (hu : (tokenSet a ∪ tokenSet b).card = u) (hu0 : u ≠ 0)
    (hi : (tokenSet a ∩ tokenSet b).card = i) :
    computeJaccard a b = (i : ℚ) / (u : ℚ) := by
  simp only [computeJaccard]
  rw [hna, hnb, hu, hi]
  rw [if_neg (by simp [hna0, hnb0]), if_neg hu0]

theorem jac_AB : computeJaccardNorm (combinedQA cardA) (combinedQA cardB) = 4/8 := by
  unfold computeJaccardNorm
  rw [computeJaccard_eval _ _ 4 8 6 6 (by decide) (by decide) (by norm_num) (by norm_num)
    (by decide) (by norm_num) (by decide)]
  norm_num

theorem jac_BA : computeJaccardNorm (combinedQA cardB) (combinedQA cardA) = 4/8 := by
  rw [computeJaccardNorm_comm]
  exact jac_AB

theorem jac_CA : computeJaccardNorm (combinedQA cardC) (combinedQA cardA) = 5/7 := by
  unfold computeJaccardNorm
  rw [computeJaccard_eval _ _ 5 7 6 6 (by decide) (by decide) (by norm_num) (by norm_num)
    (by decide) (by norm_num) (by decide)]
  norm_num

theorem jac_CB : computeJaccardNorm (combinedQA cardC) (combinedQA cardB) = 5/7 := by
  unfold computeJaccardNorm
  rw [computeJaccard_eval _ _ 5 7 6 6 (by decide) (by decide) (by norm_num) (by norm_num)
    (by decide) (by norm_num) (by decide)]
  norm_num

theorem jac_BC : computeJaccardNorm (combinedQA cardB) (combinedQA cardC) = 5/7 := by
  rw [computeJaccardNorm_comm]
  exact jac_CB

theorem dedupe_ABC_eval : dedupeCards [cardA, cardB, cardC] (7/10) = [cardC, cardB] := by
  have h1 : dedupeInsert (7/10) [cardA] cardB = [cardA, cardB] := by
    simp only [dedupeInsert]
    rw [jac_BA, if_neg (by norm_num)]
  have h2 : dedupeInsert (7/10) [cardA, cardB] cardC = [mergeCard cardA cardC, cardB] := by
    simp only [dedupeInsert]
    rw [jac_CA, if_pos (by norm_num)]
  have h3 : mergeCard cardA cardC = cardC := by
    unfold mergeCard
    rw [if_pos (by decide)]
    decide
  show List.foldl (dedupeInsert (7/10)) [] [cardA, cardB, cardC] = [cardC, cardB]
  rw [List.foldl_cons, List.foldl_cons, List.foldl_cons, List.foldl_nil]
  rw [show dedupeInsert (7/10) [] cardA = [cardA] from rfl, h1, h2, h3]

theorem dedupe_CB_eval : dedupeCards [cardC, cardB] (7/10) = [cardC] := by
  have h1 : dedupeInsert (7/10) [cardC] cardB = [mergeCard cardC cardB] := by
    simp only [dedupeInsert]
    rw [jac_BC, if_pos (by norm_num)]
  have h2 : mergeCard cardC cardB = cardC := by
    unfold mergeCard
    rw [if_neg (by decide)]
  show List.foldl (dedupeInsert (7/10)) [] [cardC, cardB] = [cardC]
  rw [List.foldl_cons, List.foldl_cons, List.foldl_nil]
  rw [show dedupeInsert (7/10) [] cardC = [cardC] from rfl, h1, h2]

/-- Witness for C3: the invariant and the in-place merge on concrete cards. -/
theorem c3_dedupe_invariant_witness :
    List.Pairwise (fun x y => computeJaccardNorm (combinedQA x) (combinedQA y) < 7/10)
      (dedupeCards [cardA, cardB] (7/10))
    ∧ dedupeInsert (7/10) [cardA] cardC = mergeCard cardA cardC :: [] := by
  have h := c3_dedupe_invariant (7/10) 0 [cardA, cardB] cardA cardC [] (by decide)
  exact ⟨h.1, (h.2 (by rw [jac_CA]; norm_num)).1⟩

/-- Counterexample for C3 as stated: dedupeCards upgrades cardA in place with
the payload of cardC, after which the output holds two distinct entries whose
Jaccard similarity is 5/7, at least the 0.7 threshold. -/
theorem c3_dedupe_counterexample :
    dedupeCards [cardA, cardB, cardC] (7/10) = [cardC, cardB]
    ∧ (7/10 : ℚ) ≤ computeJaccardNorm (combinedQA cardC) (combinedQA cardB)
    ∧ cardC ≠ cardB := by
  refine ⟨dedupe_ABC_eval, ?_, by decide⟩
  rw [jac_CB]
  norm_num

/-- C4 (amended): dedupeCards is the identity on every list whose entries are
pairwise strictly below the threshold, and is idempotent on any input whose
confidences are all equal (no upgrade can fire).  It is not idempotent in
general: an in-place confidence upgrade can leave two accepted entries at or
above the threshold, which a second run then merges (see the
counterexample). -/
theorem c4_dedupe_idempotent_cases (th : ℚ) (l : List Card) :
    (List.Pairwise (fun x y => computeJaccardNorm (combinedQA x) (combinedQA y) < th) l →
      dedupeCards l th = l)
    ∧ (∀ k, (∀ x ∈ l, x.confidence = k) →
        dedupeCards (dedupeCards l th) th = dedupeCards l th) := by
  constructor
  · intro hpw
    unfold dedupeCards
    have := dedupe_fold_fixed th l [] (by simpa using hpw)
    simpa using this
  · intro k hconf
    have hinv := dedupe_fold_inv th k l [] (by intro x hx; cases hx) hconf List.Pairwise.nil
    unfold dedupeCards
    have := dedupe_fold_fixed th (l.foldl (dedupeInsert th) []) [] (by simpa using hinv.2)
    simpa using this

/-- Witness for C4: the amended statements applied to concrete lists. -/
theorem c4_dedupe_idempotent_witness :
    dedupeCards [cardA, cardB] (7/10) = [cardA, cardB]
    ∧ dedupeCards (dedupeCards [cardA, cardB] (7/10)) (7/10)
        = dedupeCards [cardA, cardB] (7/10) := by
  have hpw : List.Pairwise
      (fun x y => computeJaccardNorm (combinedQA x) (combinedQA y) < 7/10) [cardA, cardB] := by
    refine List.Pairwise.cons ?_ (List.pairwise_singleton _ _)
    intro y hy
    rcases List.mem_singleton.mp hy with rfl
    rw [jac_AB]
    norm_num
  exact ⟨(c4_dedupe_idempotent_cases (7/10) [cardA, cardB]).1 hpw,
    (c4_dedupe_idempotent_cases (7/10) [cardA, cardB]).2 0 (by decide)⟩

/-- Counterexample for C4 as stated: re-running dedupeCards on its own output
changes it (the upgraded first entry and the second entry merge on the second
run), so the Deduplicator is not idempotent. -/
theorem c4_dedupe_counterexample :
    dedupeCards (dedupeCards [cardA, cardB, cardC] (7/10)) (7/10)
      ≠ dedupeCards [cardA, cardB, cardC] (7/10) := by
  rw [dedupe_ABC_eval, dedupe_CB_eval]
  decide

-- ===================== Confidence theorems (C6) =====================

theorem overlapFrac_nonneg (t : List Str) (S : Finset Str) : 0 ≤ overlapFrac t S := by
  unfold overlapFrac
  split_ifs
  · norm_num
  · positivity

theorem overlapFrac_le_one (t : List Str) (S : Finset Str) : overlapFrac t S ≤ 1 := by
  unfold overlapFrac
  split_ifs with h
  · norm_num
  · have hle : t.countP (fun x => decide (3 ≤ x.length) && decide (x ∈ S)) ≤ t.length :=
      List.countP_le_length _
    rw [div_le_one (by exact_mod_cast Nat.pos_of_ne_zero h)]
    exact_mod_cast hle

theorem overlapFrac_eval (ts : List Str) (S : Finset Str) (m n : ℕ)
    (hm : ts.countP (fun t => decide (3 ≤ t.length) && decide (t ∈ S)) = m)
    (hn : ts.length = n) (h0 : n ≠ 0) :
    overlapFrac ts S = (m : ℚ) / (n : ℚ) := by
  unfold overlapFrac
  rw [hm, hn, if_neg h0]

theorem specFrac_eval (ts : List Str) (S : Finset Str) (m n : ℕ)
    (hm : ts.countP (fun t => decide (t ∈ S)) = m)
    (hn : ts.length = n) (h0 : n ≠ 0) :
    specFrac ts S = (m : ℚ) / (n : ℚ) := by
  unfold specFrac
  rw [hm, hn, if_neg h0]

theorem overlapFrac_all_long (ts : List Str) (S : Finset Str)
    (h : ∀ t ∈ ts, 3 ≤ t.length) : overlapFrac ts S = specFrac ts S := by
  unfold overlapFrac specFrac
  have hcount : ts.countP (fun t => decide (3 ≤ t.length) && decide (t ∈ S))
      = ts.countP (fun t => decide (t ∈ S)) := by
    apply List.countP_congr
    intro t ht
    rw [decide_eq_true (h t ht), Bool.true_and]
  rw [hcount]

theorem longTokens_all_long (s : Str)
    (h : ∀ t ∈ tokenizeWords (normalizeTextForSimilarity s), 3 ≤ t.length) :
    longTokens s = tokenizeWords (normalizeTextForSimilarity s) := by
  unfold longTokens
  apply List.filter_eq_self.mpr
  intro t ht
  exact decide_eq_true (h t ht)

/-- C6 (amended): the per-card confidence is min of 1 and the 0.4 and 0.6
weighted overlap sum, lies in the unit interval, and agrees with the formula
as the spec words it exactly when every field token has length at least 3
(in general the code divides by the total token count of the field, short
tokens included); the confidence is returned with each response card but the
database insert rows carry only question, answer and difficulty. -/
theorem c6_confidence_amended (q a source : Str) (deduped : List Card) :
    0 ≤ computeSupportScore q a source
    ∧ computeSupportScore q a source ≤ 1
    ∧ ((∀ t ∈ tokenizeWords (normalizeTextForSimilarity q), 3 ≤ t.length) →
       (∀ t ∈ tokenizeWords (normalizeTextForSimilarity a), 3 ≤ t.length) →
        computeSupportScore q a source = specConfidence q a source)
    ∧ (flashcardsToInsert deduped).map (fun r => (r.question, r.answer))
        = deduped.map (fun c => (c.question, c.answer))
    ∧ (responseCards deduped).map (fun r => r.confidence)
        = deduped.map (fun c => c.confidence) := by
  have hq0 := overlapFrac_nonneg (tokenizeWords (normalizeTextForSimilarity q))
    ((tokenizeWords (normalizeTextForSimilarity source)).toFinset)
  have ha0 := overlapFrac_nonneg (tokenizeWords (normalizeTextForSimilarity a))
    ((tokenizeWords (normalizeTextForSimilarity source)).toFinset)
  have hq1 := overlapFrac_le_one (tokenizeWords (normalizeTextForSimilarity q))
    ((tokenizeWords (normalizeTextForSimilarity source)).toFinset)
  have ha1 := overlapFrac_le_one (tokenizeWords (normalizeTextForSimilarity a))
    ((tokenizeWords (normalizeTextForSimilarity source)).toFinset)
  refine ⟨?_, ?_, ?_, ?_, ?_⟩
  · simp only [computeSupportScore]
    apply le_min (by norm_num)
    nlinarith
  · simp only [computeSupportScore]
    exact min_le_left _ _
  · intro hqlong halong
    simp only [computeSupportScore, specConfidence]
    rw [longTokens_all_long q hqlong, longTokens_all_long a halong]
    rw [← overlapFrac_all_long _ _ hqlong, ← overlapFrac_all_long _ _ halong]
    apply min_eq_right
    nlinarith
  · unfold flashcardsToInsert
    rw [List.map_map]
    rfl
  · unfold responseCards
    rw [List.map_map]
    rfl

/-- Witness for C6: the weighted-overlap confidence agrees with the spec
formula on fields whose tokens all have length at least 3. -/
theorem c6_confidence_amended_witness :
    computeSupportScore (str "cat dog") (str "fish") (str "cat")
      = specConfidence (str "cat dog") (str "fish") (str "cat") :=
  (c6_confidence_amended (str "cat dog") (str "fish") (str "cat") []).2.2.1
    (by decide) (by decide)

/-- Counterexample for C6 as stated: for the supported card with question
"is cat" and answer "cat" over the source "cat dog", the code computes
confidence 4/5 (the short question token "is" inflates the denominator)
while the fraction of tokens of length at least 3 gives 1. -/
theorem c6_confidence_counterexample :
    cardSupported { question := str "is cat", answer := str "cat", difficulty := str "easy" }
      (str "cat dog") = true
    ∧ computeSupportScore (str "is cat") (str "cat") (str "cat dog") = 4/5
    ∧ specConfidence (str "is cat") (str "cat") (str "cat dog") = 1
    ∧ (4/5 : ℚ) ≠ 1 := by
  refine ⟨by decide, ?_, ?_, by norm_num⟩
  · simp only [computeSupportScore]
    rw [overlapFrac_eval _ _ 1 2 (by decide) (by decide) (by norm_num),
        overlapFrac_eval _ _ 1 1 (by decide) (by decide) (by norm_num)]
    rw [min_eq_right (by push_cast; norm_num)]
    push_cast
    norm_num
  · simp only [specConfidence]
    rw [specFrac_eval _ _ 1 1 (by decide) (by decide) (by norm_num),
        specFrac_eval _ _ 1 1 (by decide) (by decide) (by norm_num)]
    push_cast
    norm_num

-- ===================== Retry and fail-closed theorems (C1) =====================

theorem supportRate_eval (cards : List RawCard) (source : Str) (m n : ℕ)
    (hm : cards.countP (fun c => cardSupported c source) = m)
    (hn : cards.length = n) (h0 : n ≠ 0) :
    supportRate cards source = (m : ℚ) / (n : ℚ) := by
  unfold supportRate
  rw [hm, hn, if_neg h0]

/-- C1: the pipeline issues the plain generation call, then exactly one
stricter-instruction retry iff the initial support rate is below 0.6 (never
more than two calls); and whenever the post-retry support rate is below 0.5
or no card passed the support check, the run ends in the fail-closed error
response with no flashcard-set row and no flashcard rows inserted. -/
theorem c1_retry_fail_closed (gen : Bool → List RawCard) (source : Str) :
    ((runFlashcardPipeline gen source).attempts =
      if (validateFlashcards (gen false) source).2 < 6/10 then [false, true] else [false])
    ∧ (runFlashcardPipeline gen source).attempts.length ≤ 2
    ∧ ((finalValidation gen source).2 < 1/2 ∨ (finalValidation gen source).1.length = 0 →
        (runFlashcardPipeline gen source).response = PResponse.error supportFailureMsg
        ∧ (runFlashcardPipeline gen source).insertedSetRows = 0
        ∧ (runFlashcardPipeline gen source).insertedCardRows = []) := by
  by_cases hr : (validateFlashcards (gen false) source).2 < 6/10
  · have hrun : runFlashcardPipeline gen source =
        finishPipeline source [false, true] (validateFlashcards (gen true) source).1
          (validateFlashcards (gen true) source).2 := by
      unfold runFlashcardPipeline
      rw [if_pos hr]
    have hfin : finalValidation gen source = validateFlashcards (gen true) source := by
      unfold finalValidation
      rw [if_pos hr]
    refine ⟨?_, ?_, ?_⟩
    · rw [hrun, if_pos hr]
      simp only [finishPipeline]
      split_ifs <;> rfl
    · rw [hrun]
      simp only [finishPipeline]
      split_ifs <;> simp
    · intro hcond
      rw [hfin] at hcond
      rw [hrun]
      simp only [finishPipeline]
      rw [if_pos hcond]
      exact ⟨rfl, rfl, rfl⟩
  · have hrun : runFlashcardPipeline gen source =
        finishPipeline source [false] (validateFlashcards (gen false) source).1
          (validateFlashcards (gen false) source).2 := by
      unfold runFlashcardPipeline
      rw [if_neg hr]
    have hfin : finalValidation gen source = validateFlashcards (gen false) source := by
      unfold finalValidation
      rw [if_neg hr]
    refine ⟨?_, ?_, ?_⟩
    · rw [hrun, if_neg hr]
      simp only [finishPipeline]
      split_ifs <;> rfl
    · rw [hrun]
      simp only [finishPipeline]
      split_ifs <;> simp
    · intro hcond
      rw [hfin] at hcond
      rw [hrun]
      simp only [finishPipeline]
      rw [if_pos hcond]
      exact ⟨rfl, rfl, rfl⟩

/-- Witness for C1: a generation oracle producing only unsupportable cards
runs into the fail-closed error with nothing inserted. -/
theorem c1_retry_fail_closed_witness :
    (runFlashcardPipeline genEx1 sourceEx1).response = PResponse.error supportFailureMsg
    ∧ (runFlashcardPipeline genEx1 sourceEx1).insertedSetRows = 0
    ∧ (runFlashcardPipeline genEx1 sourceEx1).insertedCardRows = [] := by
  have hrate1 : (validateFlashcards (genEx1 false) sourceEx1).2 < 6/10 := by
    show supportRate (genEx1 false) sourceEx1 < 6/10
    rw [supportRate_eval (genEx1 false) sourceEx1 0 1 (by decide) (by decide) (by norm_num)]
    norm_num
  have hrate2 : (validateFlashcards (genEx1 true) sourceEx1).2 < 1/2 := by
    show supportRate (genEx1 true) sourceEx1 < 1/2
    rw [supportRate_eval (genEx1 true) sourceEx1 0 1 (by decide) (by decide) (by norm_num)]
    norm_num
  apply (c1_retry_fail_closed genEx1 sourceEx1).2.2
  left
  have hfin : finalValidation genEx1 sourceEx1 = validateFlashcards (genEx1 true) sourceEx1 := by
    unfold finalValidation
    rw [if_pos hrate1]
  rw [hfin]
  exact hrate2

-- ===================== Distractor validity theorems (C8) =====================

theorem computeJaccard_trim_left (a b : Str) :
    computeJaccard (trimStr a) b = computeJaccard a b := by
  unfold computeJaccard tokenSet
  rw [tokenizeWords_trim]

theorem supportScoreOfText_trim (a src : Str) :
    computeSupportScoreOfText (trimStr a) src = computeSupportScoreOfText a src := by
  unfold computeSupportScoreOfText
  rw [tokenizeWords_trim]

theorem supportScoreOfText_tokens_nil {s : Str} (h : tokenizeWords s = []) (src : Str) :
    computeSupportScoreOfText s src = 0 := by
  unfold computeSupportScoreOfText
  rw [h]
  rfl

theorem jaccard_left_tokens_nil {a : Str} (h : tokenizeWords a = []) (b : Str) :
    computeJaccard a b = 0 := by
  unfold computeJaccard tokenSet
  rw [h]
  simp

theorem jaccard_tokens_eq_cases {a b : Str} (h : tokenizeWords a = tokenizeWords b) :
    computeJaccard a b = 1 ∨ (computeJaccard a b = 0 ∧ tokenizeWords a = []) := by
  by_cases hnil : tokenizeWords a = []
  · exact Or.inr ⟨jaccard_left_tokens_nil hnil b, hnil⟩
  · left
    unfold computeJaccard tokenSet
    rw [← h]
    have hcard : (tokenizeWords a).toFinset.card ≠ 0 := by
      rw [Ne, Finset.card_eq_zero, List.toFinset_eq_empty_iff]
      exact hnil
    rw [if_neg (by simp [hcard]), Finset.union_self, Finset.inter_self, if_neg hcard]
    rw [div_self (by exact_mod_cast hcard)]

theorem jaccard_pos_left_tokens {a b : Str} (h : 0 < computeJaccard a b) :
    tokenizeWords a ≠ [] := by
  intro hnil
  rw [jaccard_left_tokens_nil hnil b] at h
  exact lt_irrefl 0 h

theorem tokenizeWords_nil_of_empty {s : Str} (h : s.isEmpty = true) :
    tokenizeWords s = [] := by
  rw [List.isEmpty_iff] at h
  subst h
  rfl

theorem supportScoreOfText_eval (snippet source : Str) (m n : ℕ)
    (hm : ((tokenizeWords snippet).filter (fun t => decide (3 ≤ t.length))).countP
        (fun t => decide (t ∈ (tokenizeWords source).toFinset)) = m)
    (hn : ((tokenizeWords snippet).filter (fun t => decide (3 ≤ t.length))).length = n)
    (h0 : n ≠ 0) :
    computeSupportScoreOfText snippet source = (m : ℚ) / (n : ℚ) := by
  simp only [computeSupportScoreOfText]
  rw [hm, hn, if_neg h0]

/-- C8: a candidate that is textually identical to the correct answer up to
case is always rejected; a candidate whose token-Jaccard similarity to the
correct answer is at least 0.85 is always rejected; and a candidate whose
similarity lies in the 0.15 to 0.75 band and whose source support is below
the strong-support rejection level max(0.5, correctSupport - 0.15) is
accepted. -/
theorem c8_distractor_validity (cand correct source : Str) :
    (lowerStr cand = lowerStr correct → isValidDistractor cand correct source = false)
    ∧ ((17/20 : ℚ) ≤ computeJaccard cand correct →
        isValidDistractor cand correct source = false)
    ∧ ((3/20 : ℚ) ≤ computeJaccard cand correct →
        computeJaccard cand correct ≤ (3/4 : ℚ) →
        computeSupportScoreOfText cand source
          < max (1/2) (computeSupportScoreOfText correct source - 3/20) →
        isValidDistractor cand correct source = true) := by
  have htrimJ : computeJaccard (trimStr cand) correct = computeJaccard cand correct :=
    computeJaccard_trim_left cand correct
  have htrimS : computeSupportScoreOfText (trimStr cand) source
      = computeSupportScoreOfText cand source := supportScoreOfText_trim cand source
  refine ⟨?_, ?_, ?_⟩
  · intro hL
    have htok : tokenizeWords (trimStr cand) = tokenizeWords correct := by
      rw [tokenizeWords_trim]
      exact tokenizeWords_lower_congr hL
    simp only [isValidDistractor]
    split_ifs with h1 h2 h3 h4 h5 h6 h7
    · rfl
    · rfl
    · rfl
    · rfl
    · rfl
    · exfalso
      rcases jaccard_tokens_eq_cases htok with hone | ⟨hzero, _⟩
      · rw [hone] at h6
        have := h6.2
        norm_num at this
      · rw [hzero] at h6
        have := h6.1
        norm_num at this
    · exfalso
      rcases jaccard_tokens_eq_cases htok with hone | ⟨hzero, hnil⟩
      · rw [hone] at h7
        have := h7.2
        norm_num at this
      · rw [supportScoreOfText_tokens_nil hnil source] at h7
        exact lt_irrefl 0 h7.1
    · rfl
  · intro hJ
    simp only [isValidDistractor]
    split_ifs with h1 h2 h3 h4 h5 h6 h7
    · rfl
    · rfl
    · rfl
    · rfl
    · rfl
    · exfalso
      rw [htrimJ] at h4 h6
      have := h6.2
      linarith
    · exfalso
      rw [htrimJ] at h4
      exact h4 hJ
    · rfl
  · intro hb1 hb2 hs
    simp only [isValidDistractor]
    split_ifs with h1 h2 h3 h4 h5 h6 h7
    · exfalso
      have := jaccard_left_tokens_nil (tokenizeWords_nil_of_empty h1) correct
      rw [this] at hb1
      norm_num at hb1
    · exfalso
      have hnil : tokenizeWords cand = [] := by
        rw [← tokenizeWords_trim]
        exact tokenizeWords_nil_of_empty h2
      rw [jaccard_left_tokens_nil hnil correct] at hb1
      norm_num at hb1
    · exfalso
      have htok : tokenizeWords cand = tokenizeWords correct := by
        rw [← tokenizeWords_trim cand]
        exact tokenizeWords_lower_congr h3
      rcases jaccard_tokens_eq_cases htok with hone | ⟨hzero, _⟩
      · rw [hone] at hb2
        norm_num at hb2
      · rw [hzero] at hb1
        norm_num at hb1
    · exfalso
      rw [htrimJ] at h4
      linarith
    · exfalso
      rw [htrimS] at h5
      linarith [le_of_lt hs]
    · rfl
    · rfl
    · exfalso
      rw [htrimJ] at h6
      exact h6 ⟨hb1, hb2⟩

/-- Witness for C8: the three behaviours on concrete candidates (a
case-variant of the correct answer; a 0.9-similar near-duplicate; and a
0.15-to-0.75-band candidate with zero source support). -/
theorem c8_distractor_validity_witness :
    isValidDistractor (str "Paris") (str "paris") (str "the capital") = false
    ∧ isValidDistractor
        (str "alpha beta gamma delta epsilon zeta eta theta iota")
        (str "alpha beta gamma delta epsilon zeta eta theta iota kappa") [] = false
    ∧ isValidDistractor (str "alpha beta gamma delta")
        (str "alpha beta epsilon zeta") [] = true := by
  refine ⟨?_, ?_, ?_⟩
  · exact (c8_distractor_validity _ _ _).1 (by decide)
  · apply (c8_distractor_validity _ _ _).2.1
    rw [computeJaccard_eval _ _ 9 10 9 10 (by decide) (by decide) (by norm_num) (by norm_num)
      (by decide) (by norm_num) (by decide)]
    norm_num
  · have hJ : computeJaccard (str "alpha beta gamma delta") (str "alpha beta epsilon zeta")
        = (2 : ℚ) / 6 := by
      rw [computeJaccard_eval _ _ 2 6 4 4 (by decide) (by decide) (by norm_num) (by norm_num)
        (by decide) (by norm_num) (by decide)]
      norm_num
    apply (c8_distractor_validity _ _ _).2.2
    · rw [hJ]; norm_num
    · rw [hJ]; norm_num
    · rw [supportScoreOfText_eval _ _ 0 4 (by decide) (by decide) (by norm_num),
          supportScoreOfText_eval _ _ 0 4 (by decide) (by decide) (by norm_num)]
      rw [max_eq_left (by push_cast; norm_num)]
      push_cast
      norm_num

-- ===================== Quiz-from-flashcards loop (C7) =====================

/-- C7 (code bug at generate-quiz/index.ts line 332): on a pool of four
flashcards sharing one answer over a source that yields no valid distractor,
buildMCQFromCard resolves to null for every card, so per the skip rule no
question should be emitted; but the un-awaited async call makes mcq a truthy
pending Promise, so the loop pushes one pending-Promise entry per card:
nothing is skipped and no pushed entry is a four-option question. -/
theorem c7_quiz_missing_await_bug :
    buildMCQFromCard id (extractSentences quizContentEx) [] (quizCardEx 1)
      ((quizPoolEx.filter (fun c => !(c.id == 1))).map (fun c => c.answer)) quizContentEx
      = none
    ∧ quizFromFlashcards id (extractSentences quizContentEx) (fun _ => []) quizPoolEx
        quizPoolEx quizContentEx 10 =
      [QuizEntry.pendingPromise none, QuizEntry.pendingPromise none,
       QuizEntry.pendingPromise none, QuizEntry.pendingPromise none] := by decide

-- ===================== Page-range theorems (C9) =====================

theorem mapIdxGo_mem (f : Nat → Nat × Nat × Str → PChunk) :
    ∀ (l : List (Nat × Nat × Str)) (i : Nat) (x : PChunk),
      x ∈ mapIdxGo f i l → ∃ j a, x = f j a := by
  intro l
  induction l with
  | nil => intro i x hx; cases hx
  | cons a rest ih =>
    intro i x hx
    rcases List.mem_cons.mp hx with rfl | hx
    · exact ⟨i, a, rfl⟩
    · exact ih (i + 1) x hx

theorem chunkPagesGo_page_bounds (cs ov : Nat) :
    ∀ (pages : List Str) (p idStart off : Nat),
      ∀ ch ∈ chunkPagesGo cs ov pages p idStart off,
        ch.page_from = ch.page_to ∧ p + 1 ≤ ch.page_from
          ∧ ch.page_from ≤ p + pages.length := by
  intro pages
  induction pages with
  | nil => intro p i o ch hch; cases hch
  | cons pg rest ih =>
    intro p i o ch hch
    simp only [chunkPagesGo] at hch
    rcases List.mem_append.mp hch with hh | ht
    · obtain ⟨j, a, rfl⟩ := mapIdxGo_mem _ _ _ _ hh
      refine ⟨rfl, le_refl _, ?_⟩
      simp only [List.length_cons]
      omega
    · obtain ⟨heq, hlo, hhi⟩ := ih (p + 1) (i + (keptSlices pg cs ov).length)
        (o + pg.length) ch ht
      refine ⟨heq, by omega, ?_⟩
      simp only [List.length_cons]
      omega

/-- C9 (amended): startPage is clamped below to 1 and endPage above to the
page count; the narrowed page list is a contiguous slice of the document
pages and feeds both the keyword profile and the chunk pool; and every
produced chunk reports a single page between 1 and the NUMBER OF SELECTED
PAGES - the chunk pages are renumbered relative to the slice, not kept as
the original document page ordinals the claim describes. -/
theorem c9_page_range_amended (pages : List Str) (sp ep cs ov : Nat) :
    (∀ ch ∈ chunkPagesToChunks (narrowPages pages sp ep) cs ov,
        ch.page_from = ch.page_to ∧ 1 ≤ ch.page_from
          ∧ ch.page_to ≤ (narrowPages pages sp ep).length)
    ∧ ∃ pre post, pages = pre ++ narrowPages pages sp ep ++ post := by
  constructor
  · intro ch hch
    obtain ⟨heq, hlo, hhi⟩ :=
      chunkPagesGo_page_bounds cs ov (narrowPages pages sp ep) 0 0 0 ch hch
    exact ⟨heq, by omega, by rw [← heq]; omega⟩
  · by_cases h : sp ≠ 0 ∨ ep ≠ 0
    · refine ⟨pages.take (fromPage sp - 1),
        (pages.drop (fromPage sp - 1)).drop (toPage pages ep - (fromPage sp - 1)), ?_⟩
      unfold narrowPages
      rw [if_pos h]
      conv_lhs => rw [← List.take_append_drop (fromPage sp - 1) pages]
      rw [List.append_assoc]
      congr 1
      exact (List.take_append_drop _ _).symm
    · exact ⟨[], [], by unfold narrowPages; rw [if_neg h]; simp⟩

/-- Witness for C9: the first chunk of the 2-to-3 narrowing of the five-page
document satisfies the amended bounds. -/
theorem c9_page_range_amended_witness :
    chunkEx.page_from = chunkEx.page_to
    ∧ 1 ≤ chunkEx.page_from
    ∧ chunkEx.page_to ≤ (narrowPages pagesEx 2 3).length :=
  (c9_page_range_amended pagesEx 2 3 2200 300).1 chunkEx (by decide)

/-- Counterexample for C9 as stated: startPage 2 and endPage 3 on the
five-page document yield chunks reporting pages 1 and 2, so a chunk reports
a page outside the requested 2-to-3 range. -/
theorem c9_page_range_counterexample :
    pagesEx.length = 5
    ∧ (chunkPagesToChunks (narrowPages pagesEx 2 3) 2200 300).map (fun ch => ch.page_from)
        = [1, 2]
    ∧ (chunkPagesToChunks (narrowPages pagesEx 2 3) 2200 300).any
        (fun ch => decide (ch.page_from < 2)) = true := by decide

-- ===================== Difficulty theorems (C10) =====================

/-- C10 (amended): the persisted difficulty is the model-reported label
passed through unchanged, with medium substituted only when the label is
missing (falsy); the measured word and sentence counts of the answer are
never consulted, so the persisted difficulty is independent of the answer
text. -/
theorem c10_difficulty_passthrough (c : RawCard) (deduped : List Card) (d : Card) (a : Str) :
    ((fixDifficulty c).difficulty
      = if c.difficulty.isEmpty then str "medium" else c.difficulty)
    ∧ (flashcardsToInsert deduped).map (fun r => r.difficulty)
        = deduped.map (fun x => if x.difficulty.isEmpty then str "medium" else x.difficulty)
    ∧ (flashcardsToInsert [{ d with answer := a }]).map (fun r => r.difficulty)
        = (flashcardsToInsert [d]).map (fun r => r.difficulty) := by
  refine ⟨?_, ?_, rfl⟩
  · unfold fixDifficulty
    split_ifs <;> rfl
  · unfold flashcardsToInsert
    rw [List.map_map]
    rfl

/-- Counterexample for C10 as stated: a validated card whose answer "Blue"
measures squarely in the easy band (1 word, no sentence punctuation) but
whose model label says hard is persisted with difficulty hard - the bands
never override the label. -/
theorem c10_difficulty_counterexample :
    (runFlashcardPipeline genEx2 sourceEx2).insertedCardRows.map (fun r => r.difficulty)
      = [str "hard"]
    ∧ specBandDifficulty (str "Blue") = some (str "easy")
    ∧ str "hard" ≠ str "easy" := by
  refine ⟨?_, by decide, by decide⟩
  have hrate1 : (validateFlashcards (genEx2 false) sourceEx2).2 = (1 : ℚ) / 1 := by
    show supportRate (genEx2 false) sourceEx2 = (1 : ℚ) / 1
    rw [supportRate_eval (genEx2 false) sourceEx2 1 1 (by decide) (by decide) (by norm_num)]
    norm_num
  have hr : ¬((validateFlashcards (genEx2 false) sourceEx2).2 < 6/10) := by
    rw [hrate1]
    norm_num
  have hrun : runFlashcardPipeline genEx2 sourceEx2 =
      finishPipeline sourceEx2 [false] (validateFlashcards (genEx2 false) sourceEx2).1
        (validateFlashcards (genEx2 false) sourceEx2).2 := by
    unfold runFlashcardPipeline
    rw [if_neg hr]
  have hval : (validateFlashcards (genEx2 false) sourceEx2).1 = [rawCardEx2] := by decide
  rw [hrun]
  simp only [finishPipeline]
  rw [if_neg ?hcond]
  case hcond =>
    rintro (hlt | hlen)
    · rw [hrate1] at hlt
      norm_num at hlt
    · rw [hval] at hlen
      simp at hlen
  rw [hval]
  rw [show dedupeCards ([rawCardEx2].map (fun c => withConfidence c sourceEx2)) (7/10)
      = [withConfidence rawCardEx2 sourceEx2] from rfl]
  rw [if_neg (by simp)]
  rfl
